import Mathlib

/-!
Verification of the emotion_transformer repository (model.py, dataloader.py,
lightning.py) against its natural-language specification.

Modelling conventions:
* Torch float tensors that only ever hold exact counts or exact small
  quotients are modelled by `ℚ`; where IEEE special values (NaN, ±∞) are
  observable (the division in `f1_score`) we model values by `FVal`, a
  rational-carrying type with NaN and signed infinities and IEEE-style
  `add`/`mul`/`div` (signed zeros and rounding are irrelevant here: all
  inputs are exact non-negative counts).
* Real-valued network computations (projections, layer norm, losses) are
  modelled over `ℝ`; the pretrained transformer bodies are out of scope of
  the repository and appear as abstract function fields, while the loss
  formulas (softmax cross-entropy, binary cross-entropy with logits) are
  written out explicitly.
* A 2-D tensor is a `List` of rows, a 3-D tensor a `List` of those.
-/

/-- An IEEE-like scalar: NaN, ±∞, or a finite rational.  Models the float
values flowing through `f1_score` in model.py. -/
inductive FVal where
  | nan : FVal
  | posInf : FVal
  | negInf : FVal
  | fin : ℚ → FVal
deriving DecidableEq

namespace FVal

/-- IEEE-style addition (NaN absorbs; ∞ + (-∞) = NaN). -/
def add : FVal → FVal → FVal
  | nan, _ => nan
  | _, nan => nan
  | posInf, negInf => nan
  | negInf, posInf => nan
  | posInf, _ => posInf
  | _, posInf => posInf
  | negInf, _ => negInf
  | _, negInf => negInf
  | fin a, fin b => fin (a + b)

/-- IEEE-style multiplication (NaN absorbs; ∞ · 0 = NaN). -/
def mul : FVal → FVal → FVal
  | nan, _ => nan
  | _, nan => nan
  | posInf, posInf => posInf
  | posInf, negInf => negInf
  | negInf, posInf => negInf
  | negInf, negInf => posInf
  | posInf, fin b => if b = 0 then nan else if 0 < b then posInf else negInf
  | fin a, posInf => if a = 0 then nan else if 0 < a then posInf else negInf
  | negInf, fin b => if b = 0 then nan else if 0 < b then negInf else posInf
  | fin a, negInf => if a = 0 then nan else if 0 < a then negInf else posInf
  | fin a, fin b => fin (a * b)

/-- IEEE-style division: 0/0 = NaN, x/0 = ±∞ for finite x ≠ 0,
∞/∞ = NaN, finite/∞ = 0.  (Signed zero is ignored: inputs here are
non-negative counts.) -/
def div : FVal → FVal → FVal
  | nan, _ => nan
  | _, nan => nan
  | posInf, posInf => nan
  | posInf, negInf => nan
  | negInf, posInf => nan
  | negInf, negInf => nan
  | posInf, fin b => if 0 ≤ b then posInf else negInf
  | negInf, fin b => if 0 ≤ b then negInf else posInf
  | fin _, posInf => fin 0
  | fin _, negInf => fin 0
  | fin a, fin b =>
      if b = 0 then (if a = 0 then nan else if 0 < a then posInf else negInf)
      else fin (a / b)

end FVal

/-- Result dictionary of `f1_score` in model.py
(keys "precision", "recall", "f1_score"). -/
structure PrecRecF1 where
  precision : FVal
  recall_ : FVal
  f1 : FVal
deriving DecidableEq

/-- model.py `f1_score`: precision = tp/(tp+fp), recall = tp/(tp+fn),
f1 = 2·(precision·recall)/(precision+recall), in float arithmetic. -/
def f1_score (tp fp fn : FVal) : PrecRecF1 :=
  let precision := tp.div (tp.add fp)
  let recall_ := tp.div (tp.add fn)
  { precision := precision
    recall_ := recall_
    f1 := ((FVal.fin 2).mul (precision.mul recall_)).div (precision.add recall_) }

/-- model.py `metrics`: index of the first maximum of a row
(torch.argmax over dim 1). -/
def argmaxAux : List ℚ → ℕ → ℕ → ℚ → ℕ
  | [], _, bi, _ => bi
  | x :: xs, i, bi, bv =>
      if bv < x then argmaxAux xs (i + 1) i x else argmaxAux xs (i + 1) bi bv

/-- torch.argmax of a row: first index attaining the maximum (0 on []). -/
def argmax : List ℚ → ℕ
  | [] => 0
  | x :: xs => argmaxAux xs 1 0 x

/-- One step of the confusion-matrix accumulation loop in `metrics`:
`cm[label, pred] += 1`. -/
def cmStep (cm : ℕ → ℕ → ℚ) (lp : ℕ × ℕ) : ℕ → ℕ → ℚ :=
  fun i j => if i = lp.1 ∧ j = lp.2 then cm i j + 1 else cm i j

/-- The confusion matrix accumulated over all (label, pred) pairs,
starting from torch.zeros((4,4)). -/
def cmAccum (pairs : List (ℕ × ℕ)) : ℕ → ℕ → ℚ :=
  pairs.foldl cmStep (fun _ _ => 0)

/-- Output dictionary of model.py `metrics`. -/
structure MetricsOut where
  val_loss : FVal
  val_acc : FVal
  tp : ℚ
  fp : ℚ
  fn : ℚ
deriving DecidableEq

/-- model.py `metrics`: argmax predictions, accuracy, and the tp/fp/fn
counts sliced from the accumulated 4×4 confusion matrix:
tp = cm.diagonal()[1:].sum(), fp = cm[:, 1:].sum() - tp,
fn = cm[1:, :].sum() - tp. -/
def metrics (loss : FVal) (logits : List (List ℚ)) (labels : List ℕ) : MetricsOut :=
  let preds := logits.map argmax
  let pairs := labels.zip preds
  let acc := (FVal.fin (pairs.countP (fun lp => lp.1 == lp.2) : ℚ)).div
      (FVal.fin (labels.length : ℚ))
  let cm := cmAccum pairs
  let tp := ∑ i ∈ Finset.range 3, cm (i + 1) (i + 1)
  let fp := (∑ i ∈ Finset.range 4, ∑ j ∈ Finset.range 3, cm i (j + 1)) - tp
  let fn := (∑ i ∈ Finset.range 3, ∑ j ∈ Finset.range 4, cm (i + 1) j) - tp
  { val_loss := loss, val_acc := acc, tp := tp, fp := fp, fn := fn }

/-- Logits whose row-wise argmax is [1, 1, 2, 0]; test batch of C1. -/
def c1_logits : List (List ℚ) := [[0, 1, 0, 0], [0, 1, 0, 0], [0, 0, 1, 0], [1, 0, 0, 0]]

/-- True labels of the C1 test batch. -/
def c1_labels : List ℕ := [1, 2, 2, 0]

/-- C6: `f1_score` computes precision = tp/(tp+fp), recall = tp/(tp+fn) and
f1 = 2·precision·recall/(precision+recall); `f1_score (3, 1, 1)` yields
precision = recall = f1 = 3/4; and a zero denominator (tp+fp = 0 or
tp+fn = 0 on non-negative counts) does not raise but produces NaN — in
particular `f1_score (0, 0, 5)` has recall = 0 and NaN precision. -/
theorem f1_score_formula_and_degenerate :
    (∀ a b c : ℚ, a + b ≠ 0 → a + c ≠ 0 → a / (a + b) + a / (a + c) ≠ 0 →
      f1_score (FVal.fin a) (FVal.fin b) (FVal.fin c) =
        { precision := FVal.fin (a / (a + b))
          recall_ := FVal.fin (a / (a + c))
          f1 := FVal.fin (2 * (a / (a + b) * (a / (a + c))) /
                  (a / (a + b) + a / (a + c))) }) ∧
    f1_score (FVal.fin 3) (FVal.fin 1) (FVal.fin 1) =
      { precision := FVal.fin (3 / 4), recall_ := FVal.fin (3 / 4),
        f1 := FVal.fin (3 / 4) } ∧
    ((f1_score (FVal.fin 0) (FVal.fin 0) (FVal.fin 5)).recall_ = FVal.fin 0 ∧
      (f1_score (FVal.fin 0) (FVal.fin 0) (FVal.fin 5)).precision = FVal.nan) ∧
    (∀ a b c : ℚ, 0 ≤ a → 0 ≤ b → a + b = 0 →
      (f1_score (FVal.fin a) (FVal.fin b) (FVal.fin c)).precision = FVal.nan) ∧
    (∀ a b c : ℚ, 0 ≤ a → 0 ≤ c → a + c = 0 →
      (f1_score (FVal.fin a) (FVal.fin b) (FVal.fin c)).recall_ = FVal.nan) := by
  refine ⟨?_, ?_, ⟨?_, ?_⟩, ?_, ?_⟩
  · intro a b c h1 h2 h3
    simp [f1_score, FVal.add, FVal.mul, FVal.div, h1, h2, h3]
  · norm_num [f1_score, FVal.add, FVal.mul, FVal.div]
  · norm_num [f1_score, FVal.add, FVal.mul, FVal.div]
  · norm_num [f1_score, FVal.add, FVal.mul, FVal.div]
  · intro a b c ha hb hab
    have ha0 : a = 0 := by linarith
    have hb0 : b = 0 := by linarith
    subst ha0; subst hb0
    simp [f1_score, FVal.add, FVal.mul, FVal.div]
  · intro a b c ha hc hac
    have ha0 : a = 0 := by linarith
    have hc0 : c = 0 := by linarith
    subst ha0; subst hc0
    simp [f1_score, FVal.add, FVal.mul, FVal.div]

/-- Witness for C6: the formula clause at (3, 1, 1) and the degenerate
clauses at concrete zero-denominator inputs. -/
theorem f1_score_formula_and_degenerate_witness :
    f1_score (FVal.fin 3) (FVal.fin 1) (FVal.fin 1) =
      { precision := FVal.fin ((3 : ℚ) / (3 + 1))
        recall_ := FVal.fin ((3 : ℚ) / (3 + 1))
        f1 := FVal.fin (2 * ((3 : ℚ) / (3 + 1) * ((3 : ℚ) / (3 + 1))) /
                ((3 : ℚ) / (3 + 1) + (3 : ℚ) / (3 + 1))) } ∧
    (f1_score (FVal.fin 0) (FVal.fin 0) (FVal.fin 1)).precision = FVal.nan ∧
    (f1_score (FVal.fin 0) (FVal.fin 1) (FVal.fin 0)).recall_ = FVal.nan :=
  ⟨f1_score_formula_and_degenerate.1 3 1 1 (by norm_num) (by norm_num) (by norm_num),
    f1_score_formula_and_degenerate.2.2.2.1 0 0 1 le_rfl le_rfl (by norm_num),
    f1_score_formula_and_degenerate.2.2.2.2 0 1 0 le_rfl le_rfl (by norm_num)⟩

/-- C10: with tp = 0 and strictly positive fp and fn, `f1_score` yields
well-defined precision = 0 and recall = 0, yet f1 is the 0/0 quotient,
i.e. NaN, because precision + recall = 0. -/
theorem f1_score_zero_tp_nan (b c : ℚ) (hb : 0 < b) (hc : 0 < c) :
    f1_score (FVal.fin 0) (FVal.fin b) (FVal.fin c) =
      { precision := FVal.fin 0, recall_ := FVal.fin 0, f1 := FVal.nan } := by
  simp [f1_score, FVal.add, FVal.mul, FVal.div, hb.ne', hc.ne', zero_div]

/-- Witness for C10 at fp = fn = 1. -/
theorem f1_score_zero_tp_nan_witness :
    f1_score (FVal.fin 0) (FVal.fin 1) (FVal.fin 1) =
      { precision := FVal.fin 0, recall_ := FVal.fin 0, f1 := FVal.nan } :=
  f1_score_zero_tp_nan 1 1 one_pos one_pos

/-- C1 counterexample: on the batch with argmax predictions [1, 1, 2, 0]
and labels [1, 2, 2, 0], `metrics` does not return tp = 1, fp = 1, fn = 1:
its tp is 2 (both example 0 and example 2 are correct non-others
predictions). -/
theorem metrics_example_counterexample :
    c1_logits.map argmax = [1, 1, 2, 0] ∧
    ¬ ((metrics (FVal.fin 0) c1_logits c1_labels).tp = 1 ∧
        (metrics (FVal.fin 0) c1_logits c1_labels).fp = 1 ∧
        (metrics (FVal.fin 0) c1_logits c1_labels).fn = 1) := by
  constructor
  · norm_num [c1_logits, argmax, argmaxAux]
  · intro h
    have := h.1
    rw [show (metrics (FVal.fin 0) c1_logits c1_labels).tp = 2 by
      norm_num [metrics, c1_logits, c1_labels, cmAccum, cmStep, argmax, argmaxAux,
        Finset.sum_range_succ]] at this
    norm_num at this

/-- C1 amended: tp/fp/fn are the 4×4-confusion-matrix aggregates over the
three non-"others" classes, and on the batch with argmax predictions
[1, 1, 2, 0] and labels [1, 2, 2, 0] `metrics` returns tp = 2, fp = 1,
fn = 1. -/
theorem metrics_example_amended :
    c1_logits.map argmax = [1, 1, 2, 0] ∧
    (metrics (FVal.fin 0) c1_logits c1_labels).tp = 2 ∧
    (metrics (FVal.fin 0) c1_logits c1_labels).fp = 1 ∧
    (metrics (FVal.fin 0) c1_logits c1_labels).fn = 1 := by
  refine ⟨by norm_num [c1_logits, argmax, argmaxAux], ?_, ?_, ?_⟩ <;>
    norm_num [metrics, c1_logits, c1_labels, cmAccum, cmStep, argmax, argmaxAux,
      Finset.sum_range_succ]

/-- Closed form of the accumulated confusion matrix: entry (i, j) counts
the (label, pred) pairs equal to (i, j). -/
theorem foldl_cmStep_closed (pairs : List (ℕ × ℕ)) :
    ∀ (m : ℕ → ℕ → ℚ) (i j : ℕ),
      pairs.foldl cmStep m i j =
        m i j + (pairs.countP (fun lp => decide (i = lp.1 ∧ j = lp.2)) : ℚ) := by
  induction pairs with
  | nil => intro m i j; simp
  | cons hd tl ih =>
      intro m i j
      rw [List.foldl_cons, ih, List.countP_cons]
      simp only [decide_eq_true_eq]
      by_cases h : i = hd.1 ∧ j = hd.2
      · rw [if_pos h]
        simp only [cmStep, if_pos h]
        push_cast
        ring
      · rw [if_neg h]
        simp only [cmStep, if_neg h]
        push_cast
        ring

/-- The confusion matrix entry (i, j) is the number of examples with
label i and prediction j. -/
theorem cmAccum_closed (pairs : List (ℕ × ℕ)) (i j : ℕ) :
    cmAccum pairs i j = (pairs.countP (fun lp => decide (i = lp.1 ∧ j = lp.2)) : ℚ) := by
  rw [cmAccum, foldl_cmStep_closed]
  simp

/-- Summing the per-cell counts over all columns 1..3 counts the examples
whose prediction is non-zero. -/
theorem colsum_count (pairs : List (ℕ × ℕ)) (h : ∀ x ∈ pairs, x.1 < 4 ∧ x.2 < 4) :
    ∑ i ∈ Finset.range 4, ∑ j ∈ Finset.range 3,
        pairs.countP (fun lp => decide (i = lp.1 ∧ j + 1 = lp.2))
      = pairs.countP (fun lp => decide (lp.2 ≠ 0)) := by
  induction pairs with
  | nil => simp
  | cons hd tl ih =>
      have hhd := h hd (by simp)
      have htl : ∀ x ∈ tl, x.1 < 4 ∧ x.2 < 4 := fun x hx => h x (by simp [hx])
      simp only [List.countP_cons, Finset.sum_add_distrib, ih htl]
      congr 1
      obtain ⟨l, p⟩ := hd
      obtain ⟨h1, h2⟩ := hhd
      interval_cases l <;> interval_cases p <;> decide

/-- Summing the per-cell counts over all rows 1..3 counts the examples
whose label is non-zero. -/
theorem rowsum_count (pairs : List (ℕ × ℕ)) (h : ∀ x ∈ pairs, x.1 < 4 ∧ x.2 < 4) :
    ∑ i ∈ Finset.range 3, ∑ j ∈ Finset.range 4,
        pairs.countP (fun lp => decide (i + 1 = lp.1 ∧ j = lp.2))
      = pairs.countP (fun lp => decide (lp.1 ≠ 0)) := by
  induction pairs with
  | nil => simp
  | cons hd tl ih =>
      have hhd := h hd (by simp)
      have htl : ∀ x ∈ tl, x.1 < 4 ∧ x.2 < 4 := fun x hx => h x (by simp [hx])
      simp only [List.countP_cons, Finset.sum_add_distrib, ih htl]
      congr 1
      obtain ⟨l, p⟩ := hd
      obtain ⟨h1, h2⟩ := hhd
      interval_cases l <;> interval_cases p <;> decide

/-- Summing the per-cell counts over the diagonal cells 1..3 counts the
correctly predicted non-"others" examples. -/
theorem diag_count (pairs : List (ℕ × ℕ)) (h : ∀ x ∈ pairs, x.1 < 4 ∧ x.2 < 4) :
    ∑ i ∈ Finset.range 3,
        pairs.countP (fun lp => decide (i + 1 = lp.1 ∧ i + 1 = lp.2))
      = pairs.countP (fun lp => decide (lp.1 = lp.2 ∧ lp.1 ≠ 0)) := by
  induction pairs with
  | nil => simp
  | cons hd tl ih =>
      have hhd := h hd (by simp)
      have htl : ∀ x ∈ tl, x.1 < 4 ∧ x.2 < 4 := fun x hx => h x (by simp [hx])
      simp only [List.countP_cons, Finset.sum_add_distrib, ih htl]
      congr 1
      obtain ⟨l, p⟩ := hd
      obtain ⟨h1, h2⟩ := hhd
      interval_cases l <;> interval_cases p <;> decide

/-- C9: whenever all labels and argmax predictions lie in {0,1,2,3},
the counts returned by `metrics` satisfy tp + fp = #examples predicted in
{1,2,3} and tp + fn = #examples labelled in {1,2,3}; consequently
tp ≤ tp + fp, tp ≤ tp + fn, and tp, fp, fn are all non-negative. -/
theorem metrics_confusion_invariants (loss : FVal) (logits : List (List ℚ))
    (labels : List ℕ)
    (h : ∀ x ∈ labels.zip (logits.map argmax), x.1 < 4 ∧ x.2 < 4) :
    (metrics loss logits labels).tp + (metrics loss logits labels).fp =
      ((labels.zip (logits.map argmax)).countP
        (fun lp => decide (lp.2 = 1 ∨ lp.2 = 2 ∨ lp.2 = 3)) : ℚ) ∧
    (metrics loss logits labels).tp + (metrics loss logits labels).fn =
      ((labels.zip (logits.map argmax)).countP
        (fun lp => decide (lp.1 = 1 ∨ lp.1 = 2 ∨ lp.1 = 3)) : ℚ) ∧
    (metrics loss logits labels).tp ≤
      (metrics loss logits labels).tp + (metrics loss logits labels).fp ∧
    (metrics loss logits labels).tp ≤
      (metrics loss logits labels).tp + (metrics loss logits labels).fn ∧
    0 ≤ (metrics loss logits labels).tp ∧
    0 ≤ (metrics loss logits labels).fp ∧
    0 ≤ (metrics loss logits labels).fn := by
  have htp : (metrics loss logits labels).tp =
      ((labels.zip (logits.map argmax)).countP
        (fun lp => decide (lp.1 = lp.2 ∧ lp.1 ≠ 0)) : ℚ) := by
    have e : (metrics loss logits labels).tp =
        ∑ i ∈ Finset.range 3,
          cmAccum (labels.zip (logits.map argmax)) (i + 1) (i + 1) := rfl
    rw [e, ← diag_count (labels.zip (logits.map argmax)) h]
    push_cast
    exact Finset.sum_congr rfl
      (fun i _ => cmAccum_closed (labels.zip (logits.map argmax)) (i + 1) (i + 1))
  have hfp : (metrics loss logits labels).fp =
      (∑ i ∈ Finset.range 4, ∑ j ∈ Finset.range 3,
          cmAccum (labels.zip (logits.map argmax)) i (j + 1))
        - (metrics loss logits labels).tp := rfl
  have hfn : (metrics loss logits labels).fn =
      (∑ i ∈ Finset.range 3, ∑ j ∈ Finset.range 4,
          cmAccum (labels.zip (logits.map argmax)) (i + 1) j)
        - (metrics loss logits labels).tp := rfl
  have hcol : (∑ i ∈ Finset.range 4, ∑ j ∈ Finset.range 3,
        cmAccum (labels.zip (logits.map argmax)) i (j + 1))
      = ((labels.zip (logits.map argmax)).countP
          (fun lp => decide (lp.2 ≠ 0)) : ℚ) := by
    rw [← colsum_count (labels.zip (logits.map argmax)) h]
    push_cast
    exact Finset.sum_congr rfl (fun i _ => Finset.sum_congr rfl
      (fun j _ => cmAccum_closed (labels.zip (logits.map argmax)) i (j + 1)))
  have hrow : (∑ i ∈ Finset.range 3, ∑ j ∈ Finset.range 4,
        cmAccum (labels.zip (logits.map argmax)) (i + 1) j)
      = ((labels.zip (logits.map argmax)).countP
          (fun lp => decide (lp.1 ≠ 0)) : ℚ) := by
    rw [← rowsum_count (labels.zip (logits.map argmax)) h]
    push_cast
    exact Finset.sum_congr rfl (fun i _ => Finset.sum_congr rfl
      (fun j _ => cmAccum_closed (labels.zip (logits.map argmax)) (i + 1) j))
  have hc2 : (labels.zip (logits.map argmax)).countP (fun lp => decide (lp.2 ≠ 0))
      = (labels.zip (logits.map argmax)).countP
          (fun lp => decide (lp.2 = 1 ∨ lp.2 = 2 ∨ lp.2 = 3)) := by
    refine List.countP_congr (fun x hx => ?_)
    have hx4 := (h x hx).2
    simp only [decide_eq_true_eq]
    omega
  have hc1 : (labels.zip (logits.map argmax)).countP (fun lp => decide (lp.1 ≠ 0))
      = (labels.zip (logits.map argmax)).countP
          (fun lp => decide (lp.1 = 1 ∨ lp.1 = 2 ∨ lp.1 = 3)) := by
    refine List.countP_congr (fun x hx => ?_)
    have hx4 := (h x hx).1
    simp only [decide_eq_true_eq]
    omega
  have e1 : (metrics loss logits labels).tp + (metrics loss logits labels).fp =
      ((labels.zip (logits.map argmax)).countP
        (fun lp => decide (lp.2 = 1 ∨ lp.2 = 2 ∨ lp.2 = 3)) : ℚ) := by
    rw [hfp, ← hc2, ← hcol]
    ring
  have e2 : (metrics loss logits labels).tp + (metrics loss logits labels).fn =
      ((labels.zip (logits.map argmax)).countP
        (fun lp => decide (lp.1 = 1 ∨ lp.1 = 2 ∨ lp.1 = 3)) : ℚ) := by
    rw [hfn, ← hc1, ← hrow]
    ring
  have m1 : (labels.zip (logits.map argmax)).countP
        (fun lp => decide (lp.1 = lp.2 ∧ lp.1 ≠ 0))
      ≤ (labels.zip (logits.map argmax)).countP
          (fun lp => decide (lp.2 = 1 ∨ lp.2 = 2 ∨ lp.2 = 3)) := by
    refine List.countP_mono_left (fun x hx hpx => ?_)
    have hx4 := (h x hx).2
    simp only [decide_eq_true_eq] at hpx ⊢
    omega
  have m2 : (labels.zip (logits.map argmax)).countP
        (fun lp => decide (lp.1 = lp.2 ∧ lp.1 ≠ 0))
      ≤ (labels.zip (logits.map argmax)).countP
          (fun lp => decide (lp.1 = 1 ∨ lp.1 = 2 ∨ lp.1 = 3)) := by
    refine List.countP_mono_left (fun x hx hpx => ?_)
    have hx4 := (h x hx).1
    simp only [decide_eq_true_eq] at hpx ⊢
    omega
  have le1 : (metrics loss logits labels).tp ≤
      (metrics loss logits labels).tp + (metrics loss logits labels).fp := by
    rw [e1, htp]
    exact_mod_cast m1
  have le2 : (metrics loss logits labels).tp ≤
      (metrics loss logits labels).tp + (metrics loss logits labels).fn := by
    rw [e2, htp]
    exact_mod_cast m2
  have tp0 : 0 ≤ (metrics loss logits labels).tp := by
    rw [htp]
    positivity
  refine ⟨e1, e2, le1, le2, tp0, by linarith, by linarith⟩

/-- Witness for C9 on the one-example batch with label 1 and a
single-logit row (argmax prediction 0). -/
theorem metrics_confusion_invariants_witness :
    (metrics (FVal.fin 0) [[5]] [1]).tp + (metrics (FVal.fin 0) [[5]] [1]).fp =
      ((([1] : List ℕ).zip (([[5]] : List (List ℚ)).map argmax)).countP
        (fun lp => decide (lp.2 = 1 ∨ lp.2 = 2 ∨ lp.2 = 3)) : ℚ) ∧
    (metrics (FVal.fin 0) [[5]] [1]).tp + (metrics (FVal.fin 0) [[5]] [1]).fn =
      ((([1] : List ℕ).zip (([[5]] : List (List ℚ)).map argmax)).countP
        (fun lp => decide (lp.1 = 1 ∨ lp.1 = 2 ∨ lp.1 = 3)) : ℚ) ∧
    (metrics (FVal.fin 0) [[5]] [1]).tp ≤
      (metrics (FVal.fin 0) [[5]] [1]).tp + (metrics (FVal.fin 0) [[5]] [1]).fp ∧
    (metrics (FVal.fin 0) [[5]] [1]).tp ≤
      (metrics (FVal.fin 0) [[5]] [1]).tp + (metrics (FVal.fin 0) [[5]] [1]).fn ∧
    0 ≤ (metrics (FVal.fin 0) [[5]] [1]).tp ∧
    0 ≤ (metrics (FVal.fin 0) [[5]] [1]).fp ∧
    0 ≤ (metrics (FVal.fin 0) [[5]] [1]).fn :=
  metrics_confusion_invariants (FVal.fin 0) [[5]] [1] (by
    intro x hx
    simp only [argmax, argmaxAux, List.map, List.zip, List.zipWith,
      List.mem_singleton] at hx
    subst hx
    exact ⟨by omega, by omega⟩)

/-- model.py `sentence_embeds_model.layerwise_lr`: one parameter group for
the embedding layer (rate lr·decay^num_layers) followed by one group per
transformer layer l = 0..num_layers-1 (rate lr·decay^(num_layers-l+1)).
Only the learning rates are modelled; the parameter references carry no
arithmetic content. -/
def layerwise_lr (lr decay : ℚ) (num_layers : ℕ) : List ℚ :=
  [lr * decay ^ num_layers] ++
    (List.range num_layers).map (fun l => lr * decay ^ (num_layers - l + 1))

/-- Rate of the group of transformer layer l (list position l+1). -/
theorem layerwise_lr_getD (lr decay : ℚ) (n l : ℕ) (hl : l < n) :
    (layerwise_lr lr decay n).getD (l + 1) 0 = lr * decay ^ (n - l + 1) := by
  simp [layerwise_lr, List.getD_eq_getElem?_getD, List.getElem?_map,
    List.getElem?_range hl]

/-- Rate of the embedding group (list position 0). -/
theorem layerwise_lr_getD_zero (lr decay : ℚ) (n : ℕ) :
    (layerwise_lr lr decay n).getD 0 0 = lr * decay ^ n := by
  simp [layerwise_lr]

/-- Strict decrease of one power of a factor in (0, 1). -/
theorem pow_succ_lt_of_lt_one {d : ℚ} (h0 : 0 < d) (h1 : d < 1) (k : ℕ) :
    d ^ (k + 1) < d ^ k := by
  calc d ^ (k + 1) = d ^ k * d := pow_succ d k
    _ < d ^ k * 1 := by
        exact mul_lt_mul_of_pos_left h1 (pow_pos h0 k)
    _ = d ^ k := mul_one _

/-- C2 counterexample: with the actual DistilBert depth num_layers = 6,
base lr 1 and decay 1/2, the group of transformer layer 0 (list position 1)
has a strictly smaller rate than the embedding group (list position 0), so
the embedding group does not have the smallest rate and the rates are not
strictly increasing with depth. -/
theorem layerwise_lr_counterexample :
    (layerwise_lr 1 (1 / 2) 6).getD 1 0 < (layerwise_lr 1 (1 / 2) 6).getD 0 0 ∧
    ¬ ((layerwise_lr 1 (1 / 2) 6).getD 0 0 < (layerwise_lr 1 (1 / 2) 6).getD 1 0) := by
  rw [layerwise_lr_getD 1 (1 / 2) 6 0 (by norm_num),
    layerwise_lr_getD_zero 1 (1 / 2) 6]
  norm_num

/-- C2 amended: for 0 < lr and 0 < decay < 1, `layerwise_lr` returns
num_layers + 1 groups — the embedding group with rate lr·decay^num_layers
and, for each transformer layer l, a group with rate
lr·decay^(num_layers-l+1); the transformer-layer rates increase strictly
with depth, but the embedding group's rate is strictly greater than
layer 0's rate and equals layer 1's rate, so rates are not strictly
monotone from the embedding group onward. -/
theorem layerwise_lr_amended (lr decay : ℚ) (n : ℕ)
    (hlr : 0 < lr) (h0 : 0 < decay) (h1 : decay < 1) :
    (layerwise_lr lr decay n).length = n + 1 ∧
    (layerwise_lr lr decay n).getD 0 0 = lr * decay ^ n ∧
    (∀ l, l < n → (layerwise_lr lr decay n).getD (l + 1) 0 =
      lr * decay ^ (n - l + 1)) ∧
    (∀ l, l + 1 < n → (layerwise_lr lr decay n).getD (l + 1) 0 <
      (layerwise_lr lr decay n).getD (l + 2) 0) ∧
    (2 ≤ n →
      (layerwise_lr lr decay n).getD 1 0 < (layerwise_lr lr decay n).getD 0 0 ∧
      (layerwise_lr lr decay n).getD 0 0 = (layerwise_lr lr decay n).getD 2 0) := by
  refine ⟨by simp [layerwise_lr], layerwise_lr_getD_zero lr decay n,
    fun l hl => layerwise_lr_getD lr decay n l hl, ?_, ?_⟩
  · intro l hl
    rw [layerwise_lr_getD lr decay n l (by omega)]
    rw [show l + 2 = (l + 1) + 1 by omega,
      layerwise_lr_getD lr decay n (l + 1) (by omega)]
    have he : n - l + 1 = (n - (l + 1) + 1) + 1 := by omega
    rw [he]
    exact mul_lt_mul_of_pos_left (pow_succ_lt_of_lt_one h0 h1 _) hlr
  · intro hn
    constructor
    · rw [show (1 : ℕ) = 0 + 1 by omega, layerwise_lr_getD lr decay n 0 (by omega),
        layerwise_lr_getD_zero lr decay n]
      have he : n - 0 + 1 = n + 1 := by omega
      rw [he]
      exact mul_lt_mul_of_pos_left (pow_succ_lt_of_lt_one h0 h1 n) hlr
    · rw [show (2 : ℕ) = 1 + 1 by omega, layerwise_lr_getD lr decay n 1 (by omega),
        layerwise_lr_getD_zero lr decay n]
      have he : n - 1 + 1 = n := by omega
      rw [he]

/-- Witness for C2 amended at lr = 1, decay = 1/2, num_layers = 6. -/
theorem layerwise_lr_amended_witness :
    (layerwise_lr 1 (1 / 2) 6).length = 7 ∧
    (layerwise_lr 1 (1 / 2) 6).getD 1 0 < (layerwise_lr 1 (1 / 2) 6).getD 2 0 ∧
    (layerwise_lr 1 (1 / 2) 6).getD 1 0 < (layerwise_lr 1 (1 / 2) 6).getD 0 0 ∧
    (layerwise_lr 1 (1 / 2) 6).getD 0 0 = (layerwise_lr 1 (1 / 2) 6).getD 2 0 := by
  have T := layerwise_lr_amended 1 (1 / 2) 6 (by norm_num) (by norm_num) (by norm_num)
  exact ⟨T.1, T.2.2.2.1 0 (by norm_num), (T.2.2.2.2 (by norm_num)).1,
    (T.2.2.2.2 (by norm_num)).2⟩

/-- lightning.py `EmotionModel.__init__`:
emo_dict = {"others": 0, "sad": 1, "angry": 2, "happy": 3}. -/
def emo_dict : List (String × ℕ) :=
  [("others", 0), ("sad", 1), ("angry", 2), ("happy", 3)]

/-- Python dict lookup; `none` models the KeyError raised on a missing
key. -/
def dictLookup (d : List (String × ℕ)) (k : String) : Option ℕ :=
  (d.find? (fun p => p.1 == k)).map (fun p => p.2)

/-- dataloader.py `get_labels`: maps every record's label string through
the emotion dictionary; a single missing label aborts the whole list
comprehension (KeyError), modelled as `none`. -/
def get_labels (d : List (String × ℕ)) : List String → Option (List ℕ)
  | [] => some []
  | l :: ls =>
      match dictLookup d l, get_labels d ls with
      | some v, some vs => some (v :: vs)
      | _, _ => none

/-- C7: the label mapping is a bijection on the known labels — "others",
"sad", "angry", "happy" map to the distinct integers 0, 1, 2, 3 — and any
record list containing a label absent from the map makes `get_labels`
fail with a lookup error (none) instead of substituting a default. -/
theorem get_labels_bijection_and_fail_fast :
    (dictLookup emo_dict "others" = some 0 ∧
      dictLookup emo_dict "sad" = some 1 ∧
      dictLookup emo_dict "angry" = some 2 ∧
      dictLookup emo_dict "happy" = some 3) ∧
    (emo_dict.map (fun p => p.2)).Nodup ∧
    (∀ s : String, s ≠ "others" → s ≠ "sad" → s ≠ "angry" → s ≠ "happy" →
      dictLookup emo_dict s = none) ∧
    (∀ ls : List String, (∃ s ∈ ls, dictLookup emo_dict s = none) →
      get_labels emo_dict ls = none) := by
  refine ⟨⟨by decide, by decide, by decide, by decide⟩, by decide, ?_, ?_⟩
  · intro s h1 h2 h3 h4
    have b1 : ("others" == s) = false := beq_eq_false_iff_ne.mpr fun e => h1 e.symm
    have b2 : ("sad" == s) = false := beq_eq_false_iff_ne.mpr fun e => h2 e.symm
    have b3 : ("angry" == s) = false := beq_eq_false_iff_ne.mpr fun e => h3 e.symm
    have b4 : ("happy" == s) = false := beq_eq_false_iff_ne.mpr fun e => h4 e.symm
    simp [dictLookup, emo_dict, List.find?, b1, b2, b3, b4]
  · intro ls
    induction ls with
    | nil => rintro ⟨s, hs, _⟩; simp at hs
    | cons l tl ih =>
        rintro ⟨s, hs, hnone⟩
        rcases List.mem_cons.mp hs with he | ht
        · subst he
          simp [get_labels, hnone]
        · have htl : get_labels emo_dict tl = none := ih ⟨s, ht, hnone⟩
          cases hd : dictLookup emo_dict l <;> simp [get_labels, hd, htl]

/-- Witness for C7: the unknown label "fear" makes both the lookup and
`get_labels` fail. -/
theorem get_labels_bijection_and_fail_fast_witness :
    dictLookup emo_dict "fear" = none ∧
    get_labels emo_dict ["fear"] = none := by
  have hfear : dictLookup emo_dict "fear" = none :=
    get_labels_bijection_and_fail_fast.2.2.1 "fear"
      (by decide) (by decide) (by decide) (by decide)
  exact ⟨hfear,
    get_labels_bijection_and_fail_fast.2.2.2 ["fear"] ⟨"fear", by simp, hfear⟩⟩

/-- lightning.py `EmotionModel.forward`: the sentence-embedding encoder is
run inside torch.no_grad() exactly when current_epoch < frozen_epochs. -/
def encoder_runs_no_grad (current_epoch frozen_epochs : ℕ) : Bool :=
  decide (current_epoch < frozen_epochs)

/-- Whether gradients are recorded for the sentence-embedding encoder in a
forward call of `EmotionModel` (negation of the no_grad branch). -/
def encoder_grad_recorded (current_epoch frozen_epochs : ℕ) : Bool :=
  ! encoder_runs_no_grad current_epoch frozen_epochs

/-- C8: for epoch < frozen_epochs the encoder runs with gradient recording
disabled, for epoch ≥ frozen_epochs gradients are recorded, and since the
epoch counter only increases within a run the transition is
one-directional: once recording is enabled at some epoch it stays enabled
at every later epoch. -/
theorem emotion_model_frozen_phase (ce fe : ℕ) :
    (ce < fe → encoder_grad_recorded ce fe = false) ∧
    (fe ≤ ce → encoder_grad_recorded ce fe = true) ∧
    (∀ ce', ce ≤ ce' → encoder_grad_recorded ce fe = true →
      encoder_grad_recorded ce' fe = true) := by
  refine ⟨fun h => ?_, fun h => ?_, fun e h1 h2 => ?_⟩
  · simp [encoder_grad_recorded, encoder_runs_no_grad, h]
  · simp only [encoder_grad_recorded, encoder_runs_no_grad,
      Bool.not_eq_true', decide_eq_false_iff_not]
    omega
  · simp only [encoder_grad_recorded, encoder_runs_no_grad,
      Bool.not_eq_true', decide_eq_false_iff_not] at h2 ⊢
    omega

/-- Witness for C8 with frozen_epochs = 2: epoch 1 is frozen, epoch 2
unfrozen, and epoch 3 (later than 2) stays unfrozen. -/
theorem emotion_model_frozen_phase_witness :
    encoder_grad_recorded 1 2 = false ∧
    encoder_grad_recorded 2 2 = true ∧
    encoder_grad_recorded 3 2 = true :=
  ⟨(emotion_model_frozen_phase 1 2).1 (by decide),
    (emotion_model_frozen_phase 2 2).2.1 (by decide),
    (emotion_model_frozen_phase 2 2).2.2 3 (by decide)
      ((emotion_model_frozen_phase 2 2).2.1 (by decide))⟩

/-- dataloader.py `transform_data`'s per-turn tokenization:
tokenizer.encode(turn, max_length=max_seq_len) — the external tokenizer
`tok` truncated to `max_seq_len` tokens. -/
def tokenize_fct (tok : String → List ℕ) (max_seq_len : ℕ) (turn : String) : List ℕ :=
  (tok turn).take max_seq_len

/-- The three turn columns ["turn1", "turn2", "turn3"] of a record. -/
def turnsOf (r : String × String × String) : List String := [r.1, r.2.1, r.2.2]

/-- dataloader.py `transform_data`: tokenizes the three turns of every
record, right-pads each id sequence with 0 to max_seq_len, and builds the
attention mask torch.where(padded != 0, 1, 0). -/
def transform_data (tok : String → List ℕ)
    (records : List (String × String × String)) (max_seq_len : ℕ) :
    List (List (List ℕ)) × List (List (List ℕ)) :=
  let tokenized := records.map (fun r => (turnsOf r).map (tokenize_fct tok max_seq_len))
  let padded := tokenized.map (fun row => row.map
    (fun ids => ids ++ List.replicate (max_seq_len - ids.length) 0))
  let attention_mask := padded.map (fun row => row.map
    (fun ids => ids.map (fun v => if v ≠ 0 then 1 else 0)))
  (padded, attention_mask)

/-- A tokenized turn after padding. -/
def padTurn (tok : String → List ℕ) (msl : ℕ) (s : String) : List ℕ :=
  tokenize_fct tok msl s ++
    List.replicate (msl - (tokenize_fct tok msl s).length) 0

/-- One attention-mask entry: torch.where(v != 0, 1, 0). -/
def maskBit (v : ℕ) : ℕ := if v ≠ 0 then 1 else 0

/-- Entry (i, j, k) of a 3-D tensor given as nested lists (0 outside the
index range, like the pad value). -/
def idx3 (x : List (List (List ℕ))) (i j k : ℕ) : ℕ :=
  ((x.getD i []).getD j []).getD k 0

/-- getD commutes with map when the defaults correspond. -/
theorem getD_map_eq {α β : Type} (g : α → β) (l : List α) (i : ℕ) (d : α) :
    (l.map g).getD i (g d) = g (l.getD i d) := by
  induction l generalizing i with
  | nil => simp
  | cons a tl ih => cases i <;> simp [ih]

/-- The padded tensor, written record-wise. -/
theorem transform_data_fst (tok : String → List ℕ)
    (records : List (String × String × String)) (msl : ℕ) :
    (transform_data tok records msl).1 =
      records.map (fun r => (turnsOf r).map (padTurn tok msl)) := by
  simp [transform_data, padTurn, List.map_map, Function.comp]

/-- The mask tensor is the padded tensor with every entry replaced by its
mask bit. -/
theorem transform_data_snd (tok : String → List ℕ)
    (records : List (String × String × String)) (msl : ℕ) :
    (transform_data tok records msl).2 =
      (transform_data tok records msl).1.map
        (fun row => row.map (fun ids => ids.map maskBit)) := rfl

/-- Every padded turn has exactly max_seq_len entries. -/
theorem padTurn_length (tok : String → List ℕ) (msl : ℕ) (s : String) :
    (padTurn tok msl s).length = msl := by
  simp only [padTurn, tokenize_fct, List.length_append, List.length_take,
    List.length_replicate]
  omega

/-- Entrywise description of the mask tensor. -/
theorem idx3_map_maskBit (x : List (List (List ℕ))) (i j k : ℕ) :
    idx3 (x.map (fun row => row.map (fun ids => ids.map maskBit))) i j k =
      maskBit (idx3 x i j k) := by
  unfold idx3
  have h1 : (x.map (fun row => row.map (fun ids => ids.map maskBit))).getD i [] =
      (x.getD i []).map (fun ids => ids.map maskBit) :=
    getD_map_eq (fun row => row.map (fun ids => ids.map maskBit)) x i []
  have h2 : ((x.getD i []).map (fun ids => ids.map maskBit)).getD j [] =
      ((x.getD i []).getD j []).map maskBit :=
    getD_map_eq (fun ids => ids.map maskBit) (x.getD i []) j []
  have h3 : (((x.getD i []).getD j []).map maskBit).getD k 0 =
      maskBit (((x.getD i []).getD j []).getD k 0) :=
    getD_map_eq maskBit ((x.getD i []).getD j []) k 0
  rw [h1, h2, h3]

/-- A mask bit vanishes exactly on the pad value 0. -/
theorem maskBit_eq_zero_iff (v : ℕ) : maskBit v = 0 ↔ v = 0 := by
  by_cases h : v = 0 <;> simp [maskBit, h]

/-- C5: `transform_data` returns id and mask tensors of identical shape
(N, 3, max_seq_len); every tokenized turn is right-padded with the pad
value 0 up to max_seq_len; and the mask entry is 0 exactly where the id
entry is 0 (1 exactly at non-pad positions). -/
theorem transform_data_shape_pad_mask (tok : String → List ℕ)
    (records : List (String × String × String)) (max_seq_len : ℕ) :
    (transform_data tok records max_seq_len).1.length = records.length ∧
    (transform_data tok records max_seq_len).2.length = records.length ∧
    (∀ row ∈ (transform_data tok records max_seq_len).1,
      row.length = 3 ∧ ∀ t ∈ row, t.length = max_seq_len) ∧
    (∀ row ∈ (transform_data tok records max_seq_len).2,
      row.length = 3 ∧ ∀ t ∈ row, t.length = max_seq_len) ∧
    (∀ i j k, idx3 (transform_data tok records max_seq_len).2 i j k = 0 ↔
      idx3 (transform_data tok records max_seq_len).1 i j k = 0) ∧
    (∀ i, i < records.length → ∀ j, j < 3 →
      ((transform_data tok records max_seq_len).1.getD i []).getD j [] =
        tokenize_fct tok max_seq_len
            ((turnsOf (records.getD i default)).getD j "") ++
          List.replicate (max_seq_len -
            (tokenize_fct tok max_seq_len
              ((turnsOf (records.getD i default)).getD j "")).length) 0) := by
  refine ⟨?_, ?_, ?_, ?_, ?_, ?_⟩
  · rw [transform_data_fst]; simp
  · rw [transform_data_snd, transform_data_fst]; simp
  · rw [transform_data_fst]
    intro row hrow
    rcases List.mem_map.mp hrow with ⟨r, _, hr⟩
    subst hr
    refine ⟨by simp [turnsOf], ?_⟩
    intro t ht
    rcases List.mem_map.mp ht with ⟨s, _, hs⟩
    subst hs
    exact padTurn_length tok max_seq_len s
  · rw [transform_data_snd, transform_data_fst]
    intro row hrow
    rw [List.map_map] at hrow
    rcases List.mem_map.mp hrow with ⟨r, _, hr⟩
    subst hr
    refine ⟨by simp [turnsOf], ?_⟩
    intro t ht
    simp only [Function.comp, List.map_map, List.mem_map] at ht
    rcases ht with ⟨s, _, hs⟩
    subst hs
    simp [Function.comp, List.length_map, padTurn_length tok max_seq_len s]
  · intro i j k
    rw [transform_data_snd, idx3_map_maskBit]
    exact maskBit_eq_zero_iff _
  · intro i hi j hj
    rw [transform_data_fst]
    have e1 : (records.map (fun r => (turnsOf r).map (padTurn tok max_seq_len))).getD i [] =
        (turnsOf (records.getD i default)).map (padTurn tok max_seq_len) := by
      rw [List.getD_eq_getElem _ _ (by simpa using hi),
        List.getD_eq_getElem _ _ hi, List.getElem_map]
    rw [e1]
    have hj3 : j < (turnsOf (records.getD i default)).length := by
      simpa [turnsOf] using hj
    have e2 : ((turnsOf (records.getD i default)).map (padTurn tok max_seq_len)).getD j [] =
        padTurn tok max_seq_len ((turnsOf (records.getD i default)).getD j "") := by
      rw [List.getD_eq_getElem _ _ (by simpa using hj3),
        List.getD_eq_getElem _ _ hj3, List.getElem_map]
    rw [e2]
    rfl

/-- Tokenizer stub used by the C5 witness. -/
def c5_tok : String → List ℕ := fun _ => [9, 9]

/-- Single-record batch used by the C5 witness. -/
def c5_records : List (String × String × String) := [("a", "b", "c")]

/-- Witness for C5 at a one-record batch with max_seq_len = 4. -/
theorem transform_data_shape_pad_mask_witness :
    (transform_data c5_tok c5_records 4).1.length = 1 ∧
    (transform_data c5_tok c5_records 4).2.length = 1 ∧
    (idx3 (transform_data c5_tok c5_records 4).2 0 0 3 = 0 ↔
      idx3 (transform_data c5_tok c5_records 4).1 0 0 3 = 0) ∧
    ((transform_data c5_tok c5_records 4).1.getD 0 []).getD 0 [] =
      tokenize_fct c5_tok 4 ((turnsOf (c5_records.getD 0 default)).getD 0 "") ++
        List.replicate (4 -
          (tokenize_fct c5_tok 4
            ((turnsOf (c5_records.getD 0 default)).getD 0 "")).length) 0 := by
  have T := transform_data_shape_pad_mask c5_tok c5_records 4
  exact ⟨T.1, T.2.1, T.2.2.2.2.1 0 0 3,
    T.2.2.2.2.2 0 (by simp [c5_records]) 0 (by omega)⟩

/-- Elementwise sum of two vectors (the tensor addition
projection(sentence_embeds) + position_embeds). -/
def vecAdd (v w : List ℝ) : List ℝ := List.zipWith (· + ·) v w

/-- model.py `context_classifier_model`.  The learned components
(projection, positional-embedding table, layer norm, dropout, and the
classification-head logits of DistilBertForSequenceClassification) are
abstract functions: their weights are external state, while the data flow
around them is the repository's code. -/
structure CtxClassifier where
  othersLabel : ℕ
  projection : List ℝ → List ℝ
  position_embeds : ℕ → List ℝ
  norm : List ℝ → List ℝ
  drop : List ℝ → List ℝ
  context_transformer : List (List (List ℝ)) → List (List ℝ)

/-- Processing of the turn at original position i before the classifier
head: drop(norm(projection(t) + position_embeds(i))). -/
def processTurn (m : CtxClassifier) (i : ℕ) (t : List ℝ) : List ℝ :=
  m.drop (m.norm (vecAdd (m.projection t) (m.position_embeds i)))

/-- One conversation after projection, positional embedding (position ids
arange(3) in original order), norm and dropout. -/
def prepareTurns (m : CtxClassifier) (conv : List (List ℝ)) : List (List ℝ) :=
  List.zipWith (fun i t => processTurn m i t) (List.range 3) conv

/-- The batch fed to the classification head: every conversation's turn
sequence processed and then reversed along the sequence axis (.flip(1)). -/
def preparedBatch (m : CtxClassifier) (batch : List (List (List ℝ))) :
    List (List (List ℝ)) :=
  batch.map (fun conv => (prepareTurns m conv).reverse)

/-- Mean softmax cross-entropy of DistilBertForSequenceClassification
with labels: mean over examples of log-sum-exp(row) - row[label]. -/
noncomputable def softmaxCrossEntropy (logits : List (List ℝ)) (labels : List ℕ) : ℝ :=
  let per := (logits.zip labels).map
    (fun p => Real.log ((p.1.map Real.exp).sum) - p.1.getD p.2 0)
  per.sum / per.length

/-- Logistic sigmoid. -/
noncomputable def sigmoid (x : ℝ) : ℝ := 1 / (1 + Real.exp (-x))

/-- torch.nn.BCEWithLogitsLoss: mean over elements of
-(y·log σ(x) + (1-y)·log(1-σ(x))). -/
noncomputable def bceWithLogits (logits targets : List ℝ) : ℝ :=
  let per := (logits.zip targets).map
    (fun p => -(p.2 * Real.log (sigmoid p.1) +
      (1 - p.2) * Real.log (1 - sigmoid p.1)))
  per.sum / per.length

/-- model.py `context_classifier_model.bin_loss`: binary cross-entropy of
the logit column at the "others" index against the indicator of the
"others" label. -/
noncomputable def CtxClassifier.bin_loss (m : CtxClassifier)
    (logits : List (List ℝ)) (labels : List ℕ) : ℝ :=
  bceWithLogits (logits.map (fun row => row.getD m.othersLabel 0))
    (labels.map (fun l => if l = m.othersLabel then (1 : ℝ) else 0))

/-- Return value of `context_classifier_model.forward`: a (loss, logits)
pair when labels are given, the logits alone otherwise. -/
inductive ForwardResult where
  | withLoss (loss : ℝ) (logits : List (List ℝ)) : ForwardResult
  | logitsOnly (logits : List (List ℝ)) : ForwardResult

/-- model.py `context_classifier_model.forward`. -/
noncomputable def CtxClassifier.forward (m : CtxClassifier)
    (sentence_embeds : List (List (List ℝ))) (labels : Option (List ℕ)) :
    ForwardResult :=
  match labels with
  | none =>
      ForwardResult.logitsOnly
        (m.context_transformer (preparedBatch m sentence_embeds))
  | some ls =>
      let logits := m.context_transformer (preparedBatch m sentence_embeds)
      let loss := softmaxCrossEntropy logits ls
      ForwardResult.withLoss (loss + m.bin_loss logits ls) logits

/-- C3: with labels, forward returns the pair (total_loss, logits) where
total_loss is the unweighted sum of the softmax cross-entropy loss and the
binary cross-entropy loss on the logit at the "others" index 0
(emo_dict["others"] = 0) against the indicator target (1 exactly when the
label equals "others"); without labels it returns the logits only. -/
theorem context_classifier_forward_loss (m : CtxClassifier)
    (hm : m.othersLabel = 0) (batch : List (List (List ℝ))) (ls : List ℕ) :
    m.forward batch (some ls) =
      ForwardResult.withLoss
        (softmaxCrossEntropy (m.context_transformer (preparedBatch m batch)) ls +
          bceWithLogits
            ((m.context_transformer (preparedBatch m batch)).map
              (fun row => row.getD 0 0))
            (ls.map (fun l => if l = 0 then (1 : ℝ) else 0)))
        (m.context_transformer (preparedBatch m batch)) ∧
    m.forward batch none =
      ForwardResult.logitsOnly (m.context_transformer (preparedBatch m batch)) := by
  refine ⟨?_, rfl⟩
  simp [CtxClassifier.forward, CtxClassifier.bin_loss, hm]

/-- Concrete classifier instance with others index 0 for the C3 witness. -/
def ctx0 : CtxClassifier where
  othersLabel := 0
  projection := id
  position_embeds := fun _ => []
  norm := id
  drop := id
  context_transformer := fun _ => []

/-- Witness for C3 at a concrete classifier and the empty batch. -/
theorem context_classifier_forward_loss_witness :
    ctx0.forward [] (some []) =
      ForwardResult.withLoss
        (softmaxCrossEntropy (ctx0.context_transformer (preparedBatch ctx0 [])) [] +
          bceWithLogits
            ((ctx0.context_transformer (preparedBatch ctx0 [])).map
              (fun row => row.getD 0 0))
            (([] : List ℕ).map (fun l => if l = 0 then (1 : ℝ) else 0)))
        (ctx0.context_transformer (preparedBatch ctx0 [])) ∧
    ctx0.forward [] none =
      ForwardResult.logitsOnly (ctx0.context_transformer (preparedBatch ctx0 [])) :=
  context_classifier_forward_loss ctx0 rfl [] []

/-- C4: positional embedding i is added to the turn at original position
i, and the 3-token sequence handed to the transformer head is the reverse
of the input turn order, so the turn3 embedding (input index 2, carrying
position embedding 2) occupies sequence position 0. -/
theorem context_classifier_turn_reversal (m : CtxClassifier)
    (t0 t1 t2 : List ℝ) :
    preparedBatch m [[t0, t1, t2]] =
      [[processTurn m 2 t2, processTurn m 1 t1, processTurn m 0 t0]] ∧
    preparedBatch m [[t0, t1, t2]] =
      [[processTurn m 0 t0, processTurn m 1 t1, processTurn m 2 t2].reverse] ∧
    ((preparedBatch m [[t0, t1, t2]]).getD 0 []).getD 0 [] = processTurn m 2 t2 ∧
    m.forward [[t0, t1, t2]] none =
      ForwardResult.logitsOnly (m.context_transformer
        [[processTurn m 2 t2, processTurn m 1 t1, processTurn m 0 t0]]) :=
  ⟨rfl, rfl, rfl, rfl⟩
